import Mathlib

/-!
Verification of the branch-and-cut ATSP solver (`tsp_Project.ipynb`).

The Python source is shallowly embedded below.  Python's dynamic failure
modes are made explicit: fallible operations return `Except PyErr`, the
value `None` travelling through vertex lists is `Option.none` (so a Python
tour list is a `List (Option Nat)`), and the two unbounded `while` loops
are given an explicit fuel parameter; `PyErr.outOfFuel` marks the state
"the loop has not finished after that many iterations" and is not a Python
exception.  Selection-variable snapshots are functions `Nat → Nat → ℚ`,
mirroring the solver's float-valued variable values and the `> 0.5`
threshold test.
-/

/-- Python exceptions raised by the embedded code, plus `outOfFuel`, the
marker used by the fuelled loops for "still running after the given number
of iterations". -/
inductive PyErr where
  | assertionError
  | keyError
  | typeError
  | indexError
  | runtimeError
  | outOfFuel
deriving DecidableEq, Repr

/-- Inner loop of `__next_vertex`: scan the candidate targets `L` in order,
skip `j = i` (the `continue`), return the first `j` whose selection value
is above the `0.5` threshold. -/
def nextVertexFrom (snap : Nat → Nat → ℚ) (i : Nat) : List Nat → Option Nat
  | [] => none
  | j :: js =>
    if j = i then nextVertexFrom snap i js
    else if mkRat 1 2 < snap i j then some j
    else nextVertexFrom snap i js

/-- `__next_vertex(i)` for a genuine vertex `i`: the candidate targets are
`self.tsp.vertices()`, i.e. `0, 1, ..., n-1` in ascending order. -/
def nextVertex (n : Nat) (snap : Nat → Nat → ℚ) (i : Nat) : Option Nat :=
  nextVertexFrom snap i (List.range n)

theorem nextVertexFrom_eq_some {snap : Nat → Nat → ℚ} {i j : Nat} :
    ∀ {L : List Nat}, nextVertexFrom snap i L = some j →
      j ∈ L ∧ j ≠ i ∧ mkRat 1 2 < snap i j := by
  intro L
  induction L with
  | nil => intro h; simp [nextVertexFrom] at h
  | cons a tl ih =>
    intro h
    rw [nextVertexFrom] at h
    split_ifs at h with h1 h2
    · rcases ih h with ⟨hm, hne, hs⟩
      exact ⟨List.mem_cons_of_mem _ hm, hne, hs⟩
    · obtain rfl := Option.some.inj h
      exact ⟨List.mem_cons_self _ _, h1, h2⟩
    · rcases ih h with ⟨hm, hne, hs⟩
      exact ⟨List.mem_cons_of_mem _ hm, hne, hs⟩

theorem nextVertexFrom_eq_none {snap : Nat → Nat → ℚ} {i : Nat} :
    ∀ {L : List Nat}, nextVertexFrom snap i L = none ↔
      ∀ j ∈ L, j ≠ i → snap i j ≤ mkRat 1 2 := by
  intro L
  induction L with
  | nil => simp [nextVertexFrom]
  | cons a tl ih =>
    rw [nextVertexFrom]
    split_ifs with h1 h2
    · subst h1
      simp only [List.mem_cons, ih]
      constructor
      · rintro h j (rfl | hj) hne
        · exact absurd rfl hne
        · exact h j hj hne
      · intro h j hj hne
        exact h j (Or.inr hj) hne
    · simp only [List.mem_cons]
      constructor
      · intro h; cases h
      · intro h
        exact absurd h2 (not_lt.mpr (h a (Or.inl rfl) h1))
    · simp only [List.mem_cons, ih]
      constructor
      · rintro h j (rfl | hj) hne
        · exact not_lt.mp h2
        · exact h j hj hne
      · intro h j hj hne
        exact h j (Or.inr hj) hne

theorem nextVertexFrom_min {snap : Nat → Nat → ℚ} {i j : Nat} :
    ∀ {L : List Nat}, L.Pairwise (· < ·) → nextVertexFrom snap i L = some j →
      ∀ k ∈ L, k < j → k ≠ i → snap i k ≤ mkRat 1 2 := by
  intro L
  induction L with
  | nil => intro _ h; simp [nextVertexFrom] at h
  | cons a tl ih =>
    intro hp h k hk hkj hki
    rcases List.pairwise_cons.mp hp with ⟨ha, htl⟩
    rw [nextVertexFrom] at h
    split_ifs at h with h1 h2
    · rcases List.mem_cons.mp hk with rfl | hk
      · exact absurd h1 hki
      · exact ih htl h k hk hkj hki
    · obtain rfl := Option.some.inj h
      rcases List.mem_cons.mp hk with rfl | hk
      · exact absurd rfl (ne_of_lt hkj)
      · exact absurd hkj (not_lt.mpr (le_of_lt (ha k hk)))
    · rcases List.mem_cons.mp hk with rfl | hk
      · exact not_lt.mp h2
      · exact ih htl h k hk hkj hki

theorem nextVertexFrom_complete {snap : Nat → Nat → ℚ} {i j : Nat} :
    ∀ {L : List Nat}, L.Pairwise (· < ·) → j ∈ L → j ≠ i →
      mkRat 1 2 < snap i j →
      (∀ k ∈ L, k < j → k ≠ i → snap i k ≤ mkRat 1 2) →
      nextVertexFrom snap i L = some j := by
  intro L
  induction L with
  | nil => intro _ h; simp at h
  | cons a tl ih =>
    intro hp hj hji hsel hmin
    rcases List.pairwise_cons.mp hp with ⟨ha, htl⟩
    rw [nextVertexFrom]
    split_ifs with h1 h2
    · subst h1
      rcases List.mem_cons.mp hj with h | hj
      · exact absurd h hji
      · exact ih htl hj hji hsel fun k hk hkj hki =>
          hmin k (List.mem_cons_of_mem _ hk) hkj hki
    · rcases List.mem_cons.mp hj with rfl | hj
      · rfl
      · have haj : a < j := ha j hj
        exact absurd h2 (not_lt.mpr (hmin a (List.mem_cons_self _ _) haj h1))
    · rcases List.mem_cons.mp hj with rfl | hj
      · exact absurd hsel h2
      · exact ih htl hj hji hsel fun k hk hkj hki =>
          hmin k (List.mem_cons_of_mem _ hk) hkj hki

theorem nextVertex_eq_some {n : Nat} {snap : Nat → Nat → ℚ} {i j : Nat}
    (h : nextVertex n snap i = some j) :
    j < n ∧ j ≠ i ∧ mkRat 1 2 < snap i j := by
  rcases nextVertexFrom_eq_some (L := List.range n) h with ⟨hm, hne, hs⟩
  exact ⟨List.mem_range.mp hm, hne, hs⟩

/-- C5: `next_vertex(i, snapshot)` returns the lowest-indexed vertex
`j ≠ i` with `snapshot(i, j) > 0.5`, and `none` exactly when no vertex
below `n` passes the threshold test; ties between several above-threshold
arcs are broken deterministically in favour of the lowest index. -/
theorem next_vertex_lowest (n : Nat) (snap : Nat → Nat → ℚ) (i : Nat) :
    (∀ j, nextVertex n snap i = some j ↔
        j < n ∧ j ≠ i ∧ mkRat 1 2 < snap i j ∧
          ∀ k, k < j → k ≠ i → snap i k ≤ mkRat 1 2)
    ∧ (nextVertex n snap i = none ↔ ∀ j, j < n → j ≠ i → snap i j ≤ mkRat 1 2) := by
  constructor
  · intro j
    constructor
    · intro h
      rcases nextVertexFrom_eq_some (L := List.range n) h with ⟨hm, hne, hs⟩
      refine ⟨List.mem_range.mp hm, hne, hs, ?_⟩
      intro k hkj hki
      exact nextVertexFrom_min (List.pairwise_lt_range n) h k
        (List.mem_range.mpr (lt_trans hkj (List.mem_range.mp hm))) hkj hki
    · rintro ⟨hjn, hji, hsel, hmin⟩
      exact nextVertexFrom_complete (List.pairwise_lt_range n)
        (List.mem_range.mpr hjn) hji hsel
        fun k hk hkj hki => hmin k hkj hki
  · constructor
    · intro h j hj hji
      exact nextVertexFrom_eq_none.mp h j (List.mem_range.mpr hj) hji
    · intro h
      exact nextVertexFrom_eq_none.mpr fun j hj hji =>
        h j (List.mem_range.mp hj) hji

/-- `__next_vertex(i)` as it is actually invoked by `__tour_starting_at`,
where the argument can be Python's `None` (modelled `none`): the loop body
then evaluates `self.x[None, j]` for the first vertex `j`, and the
`tupledict` lookup raises `KeyError` (the `except` clause only catches
`GurobiError`).  With `n = 0` there is no vertex to scan and the function
falls through to `return None`. -/
def nextVertexPy (n : Nat) (snap : Nat → Nat → ℚ) : Option Nat → Except PyErr (Option Nat)
  | some v => .ok (nextVertex n snap v)
  | none => if n = 0 then .ok none else .error .keyError

/-- The `while current != i` loop of `__tour_starting_at`, with an explicit
iteration budget `fuel`.  `tour` accumulates the visited list in reverse;
its elements are Python values, so `none` can be appended (as the source
does when `__next_vertex` returns `None` mid-walk). -/
def tourAux (n : Nat) (snap : Nat → Nat → ℚ) (i : Nat) :
    Nat → Option Nat → List (Option Nat) → Except PyErr (List (Option Nat))
  | 0, current, tour =>
    if current = some i then .ok tour.reverse else .error .outOfFuel
  | fuel + 1, current, tour =>
    if current = some i then .ok tour.reverse
    else if current = some (n - 1) then .ok (current :: tour).reverse
    else
      match nextVertexPy n snap current with
      | .error e => .error e
      | .ok nxt => tourAux n snap i fuel nxt (current :: tour)

/-- `__tour_starting_at(i)`: start the tour at `i`, take the first
successor, return `[i]` immediately when there is none, otherwise run the
walk loop with the given iteration budget. -/
def tourStartingAt (n : Nat) (snap : Nat → Nat → ℚ) (i : Nat) (fuel : Nat) :
    Except PyErr (List (Option Nat)) :=
  match nextVertex n snap i with
  | none => .ok [some i]
  | some c => tourAux n snap i fuel (some c) [some i]

/-- Snapshot on 4 vertices selecting the arcs (0,1), (1,2) and (2,1): the
walk from 0 enters the 2-cycle on the vertices 1 and 2, which contains
neither the start 0 nor the sink 3. -/
def rhoSnap : Nat → Nat → ℚ := fun i j =>
  if (i = 0 ∧ j = 1) ∨ (i = 1 ∧ j = 2) ∨ (i = 2 ∧ j = 1) then 1 else 0

/-- C3, counterexample: on `rhoSnap` the walk from vertex 0 revisits
vertices 1 and 2 and is still running after `n = 4` iterations, so
`tour_starting_at` does not terminate within `n` steps for every snapshot
(in fact this run never terminates: none of the three stop conditions can
ever fire once the walk is inside the cycle). -/
theorem tour_starting_at_rho_not_done :
    tourStartingAt 4 rhoSnap 0 4 = .error .outOfFuel := by rfl

/-- Snapshot on 3 vertices selecting only the arc (0,1): the walk from 0
moves to 1, and vertex 1 has no selected outgoing arc, so `__next_vertex`
returns `None` in the middle of the walk. -/
def danglingSnap : Nat → Nat → ℚ := fun i j =>
  if i = 0 ∧ j = 1 then 1 else 0

/-- C4: when `__next_vertex` returns `None` mid-walk (not at the first
step), the source does not stop with the dangling path `[0, 1]`: the loop
guard `current != i` is true for `None`, so `None` is appended to the tour
and the next call `__next_vertex(None)` raises `KeyError` on the variable
lookup `x[None, j]`. -/
theorem tour_starting_at_dangling_keyerror :
    tourStartingAt 3 danglingSnap 0 3 = .error .keyError := by rfl

theorem nodup_some_length_le (n : Nat) (tour : List (Option Nat))
    (hnd : tour.Nodup) (hb : ∀ o ∈ tour, ∃ v, o = some v ∧ v < n) :
    tour.length ≤ n := by
  have hsub : tour.toFinset ⊆ (Finset.range n).image some := by
    intro o ho
    rcases hb o (List.mem_toFinset.mp ho) with ⟨v, rfl, hv⟩
    exact Finset.mem_image.mpr ⟨v, Finset.mem_range.mpr hv, rfl⟩
  calc tour.length = tour.toFinset.card := (List.toFinset_card_of_nodup hnd).symm
    _ ≤ ((Finset.range n).image some).card := Finset.card_le_card hsub
    _ ≤ (Finset.range n).card := Finset.card_image_le
    _ = n := Finset.card_range n

/-- Invariant-carrying form of the termination bound for the walk loop:
when no two distinct vertices share their chosen successor, the loop
starting from a state whose accumulator is a duplicate-free chain of
vertices cannot exhaust a budget covering the vertices that are left. -/
theorem tourAux_stops (n : Nat) (snap : Nat → Nat → ℚ) (i : Nat)
    (hinj : ∀ a, a < n → ∀ b, b < n →
      nextVertex n snap a = nextVertex n snap b →
      nextVertex n snap a = none ∨ a = b) :
    ∀ (fuel : Nat) (current : Option Nat) (tour : List (Option Nat)),
      tour.Nodup →
      (∀ o ∈ tour, ∃ v, o = some v ∧ v < n) →
      some i ∈ tour →
      (∀ w, some w ∈ tour → w ≠ i →
        ∃ u, some u ∈ tour ∧ nextVertex n snap u = some w) →
      (∀ c, current = some c → c ≠ i →
        c < n ∧ some c ∉ tour ∧
          ∃ u, some u ∈ tour ∧ nextVertex n snap u = some c) →
      n + 1 ≤ tour.length + fuel →
      tourAux n snap i fuel current tour ≠ .error .outOfFuel := by
  intro fuel
  induction fuel with
  | zero =>
    intro current tour hnd hb hi hpred hcur hbud
    by_cases hci : current = some i
    · simp [tourAux, hci]
    · exfalso
      have hlen := nodup_some_length_le n tour hnd hb
      omega
  | succ fuel ih =>
    intro current tour hnd hb hi hpred hcur hbud
    simp only [tourAux]
    by_cases hci : current = some i
    · simp [hci]
    · rw [if_neg hci]
      by_cases hsink : current = some (n - 1)
      · simp [hsink]
      · rw [if_neg hsink]
        cases current with
        | none =>
          have hin : i < n := by
            rcases hb _ hi with ⟨v, hv, hvn⟩
            obtain rfl := Option.some.inj hv
            exact hvn
          have hn : ¬ n = 0 := by omega
          simp [nextVertexPy, hn]
        | some c =>
          have hcne : c ≠ i := fun h => hci (congrArg some h)
          rcases hcur c rfl hcne with ⟨hcn, hfresh, u, hu, hsu⟩
          show tourAux n snap i fuel (nextVertex n snap c) (some c :: tour) ≠
            .error .outOfFuel
          refine ih (nextVertex n snap c) (some c :: tour)
            (List.nodup_cons.mpr ⟨hfresh, hnd⟩) ?_
            (List.mem_cons_of_mem _ hi) ?_ ?_ ?_
          · intro o ho
            rcases List.mem_cons.mp ho with rfl | ho
            · exact ⟨c, rfl, hcn⟩
            · exact hb o ho
          · intro w hw hwi
            rcases List.mem_cons.mp hw with hw | hw
            · obtain rfl := Option.some.inj hw
              exact ⟨u, List.mem_cons_of_mem _ hu, hsu⟩
            · rcases hpred w hw hwi with ⟨u', hu', hsu'⟩
              exact ⟨u', List.mem_cons_of_mem _ hu', hsu'⟩
          · intro c' hc' hci'
            rcases nextVertex_eq_some hc' with ⟨hc'n, hc'c, _⟩
            refine ⟨hc'n, ?_, c, List.mem_cons_self _ _, hc'⟩
            intro hmem
            rcases List.mem_cons.mp hmem with hx | hx
            · exact hc'c (Option.some.inj hx)
            · rcases hpred c' hx hci' with ⟨u2, hu2, hsu2⟩
              have hu2n : u2 < n := by
                rcases hb _ hu2 with ⟨v, hv, hvn⟩
                obtain rfl := Option.some.inj hv
                exact hvn
              have := hinj u2 hu2n c hcn (by rw [hsu2, hc'])
              rcases this with hnone | rfl
              · rw [hsu2] at hnone; cases hnone
              · exact hfresh hu2
          · simp only [List.length_cons]
            omega

/-- C3, amended: `tour_starting_at(i, snapshot)` terminates within `n`
loop iterations for every snapshot whose induced successor map is
injective where defined (no two distinct vertices share their chosen
successor — this holds for every snapshot satisfying the base model's
degree constraints); on such snapshots each vertex is visited at most
once.  Without that restriction the walk can cycle forever, see the
counterexample. -/
theorem tour_starting_at_stops (n : Nat) (snap : Nat → Nat → ℚ) (i : Nat)
    (hi : i < n)
    (hinj : ∀ a, a < n → ∀ b, b < n →
      nextVertex n snap a = nextVertex n snap b →
      nextVertex n snap a = none ∨ a = b) :
    tourStartingAt n snap i n ≠ .error .outOfFuel := by
  rw [tourStartingAt]
  cases hsucc : nextVertex n snap i with
  | none => simp
  | some c =>
    rcases nextVertex_eq_some hsucc with ⟨hcn, hcne, _⟩
    refine tourAux_stops n snap i hinj n (some c) [some i] (by simp) ?_ (by simp) ?_ ?_ ?_
    · intro o ho
      rcases List.mem_cons.mp ho with rfl | ho
      · exact ⟨i, rfl, hi⟩
      · simp at ho
    · intro w hw hwi
      rcases List.mem_cons.mp hw with hw | hw
      · exact absurd (Option.some.inj hw) hwi
      · simp at hw
    · intro c' hc' hci'
      obtain rfl := Option.some.inj hc'
      exact ⟨hcn, by simp [hcne], i, by simp, hsucc⟩
    · simp only [List.length_cons, List.length_nil]
      omega

/-- Snapshot on 3 vertices selecting the arcs (0,1) and (1,2): the walk
from 0 is the legal path 0, 1, 2 ending at the sink. -/
def pathSnap : Nat → Nat → ℚ := fun i j =>
  if (i = 0 ∧ j = 1) ∨ (i = 1 ∧ j = 2) then 1 else 0

theorem tour_starting_at_stops_witness :
    (0 < 3 ∧ (∀ a, a < 3 → ∀ b, b < 3 →
      nextVertex 3 pathSnap a = nextVertex 3 pathSnap b →
      nextVertex 3 pathSnap a = none ∨ a = b)) ∧
    tourStartingAt 3 pathSnap 0 3 ≠ .error .outOfFuel :=
  ⟨⟨by decide, by decide⟩,
    tour_starting_at_stops 3 pathSnap 0 (by decide) (by decide)⟩

/-- A lazy linear inequality: the selection variables summed on the left,
and the constant right-hand side. -/
structure LazyIneq where
  arcs : List (Nat × Nat)
  bound : Int
deriving DecidableEq

/-- Python tuple unpacking `i, j = e` applied to an element of a tour
list: that element is an int (or None), which is not a pair of values, so
the unpacking raises `TypeError`. -/
def unpackArc : Option Nat → Except PyErr (Nat × Nat) :=
  fun _ => .error .typeError

/-- `__add_sec_for(subtour)`: build the lazy constraint
`sum(x[i, j] for i, j in subtour) <= len(subtour) - 1`.  The generator
unpacks each ELEMENT of `subtour` as an arc pair. -/
def addSecFor (subtour : List (Option Nat)) : Except PyErr LazyIneq :=
  match subtour.mapM unpackArc with
  | .error e => .error e
  | .ok ps => .ok ⟨ps, (subtour.length : Int) - 1⟩

/-- The `while len(remaining) > 0` loop of `__find_subtours`, with the
arbitrary iteration order of the Python set made explicit: `remaining` is
a list and `next(iter(remaining))` picks its head.  Each illegal subtour
is submitted through `addSecFor` (whose exception propagates) and
collected into the result list, then its vertices are removed and the
loop continues.  The walk inside uses budget `n`, and the outer loop
carries its own fuel. -/
def findSubtoursAux (n : Nat) (snap : Nat → Nat → ℚ) :
    Nat → List Nat → Except PyErr (List (List (Option Nat)))
  | _, [] => .ok []
  | 0, _ :: _ => .error .outOfFuel
  | fuel + 1, start :: rest =>
    match tourStartingAt n snap start n with
    | .error e => .error e
    | .ok subtour =>
      if subtour = [some start] ∨ subtour.getLast? = some (some (n - 1)) ∨
          subtour.length < 2 then
        .ok []
      else
        match addSecFor subtour with
        | .error e => .error e
        | .ok _ =>
          match findSubtoursAux n snap fuel
              ((start :: rest).filter (fun v => !(subtour.contains (some v)))) with
          | .error e => .error e
          | .ok subs => .ok (subtour :: subs)

/-- `__find_subtours` on a MIPSOL callback: scan all vertices. -/
def findSubtours (n : Nat) (snap : Nat → Nat → ℚ) :
    Except PyErr (List (List (Option Nat))) :=
  findSubtoursAux n snap n (List.range n)

/-- Any non-empty list handed to `__add_sec_for` makes it raise
`TypeError` at the unpacking of its first element. -/
theorem addSecFor_cons_typeError (a : Option Nat) (l : List (Option Nat)) :
    addSecFor (a :: l) = .error .typeError := rfl

/-- C6: one step of the subtour scan of `__find_subtours`.  When the walk
decoded from the currently chosen starting vertex is legal (it equals the
singleton `[start]`, or ends at the sink `n-1`, or has length below 2)
the scan stops entirely and emits nothing further, whatever vertices
remain.  When the walk is illegal, however, the emit-remove-continue
behaviour the claim describes does not happen: the `__add_sec_for` call
raises `TypeError` (see C2) and the whole invocation aborts before the
subtour is recorded, before its vertices are removed from the remaining
set, and before the scan continues. -/
theorem find_subtours_scan (n : Nat) (snap : Nat → Nat → ℚ) (fuel start : Nat)
    (rest : List Nat) (t : List (Option Nat))
    (hw : tourStartingAt n snap start n = .ok t) :
    (t = [some start] ∨ t.getLast? = some (some (n - 1)) ∨ t.length < 2 →
      findSubtoursAux n snap (fuel + 1) (start :: rest) = .ok []) ∧
    (¬(t = [some start] ∨ t.getLast? = some (some (n - 1)) ∨ t.length < 2) →
      findSubtoursAux n snap (fuel + 1) (start :: rest) = .error .typeError) := by
  constructor
  · intro hlegal
    simp only [findSubtoursAux, hw, if_pos hlegal]
  · intro hillegal
    cases t with
    | nil =>
      exact absurd (Or.inr (Or.inr (by simp))) hillegal
    | cons a l =>
      simp only [findSubtoursAux, hw, if_neg hillegal, addSecFor_cons_typeError]

/-- Snapshot on 6 vertices whose selected arcs form the two disjoint
2-cycles on the vertex sets with the elements 1, 2 and 3, 4; the source 0
and the sink 5 are on neither cycle and 0 has no outgoing selected arc. -/
def twoCycleSnap : Nat → Nat → ℚ := fun i j =>
  if (i = 1 ∧ j = 2) ∨ (i = 2 ∧ j = 1) ∨ (i = 3 ∧ j = 4) ∨ (i = 4 ∧ j = 3)
    then 1 else 0

theorem find_subtours_scan_witness :
    findSubtoursAux 6 twoCycleSnap 6 [0, 1, 2, 3, 4, 5] = .ok [] ∧
    findSubtoursAux 6 twoCycleSnap 6 [1, 2, 3, 4, 5, 0] = .error .typeError :=
  ⟨(find_subtours_scan 6 twoCycleSnap 5 0 [1, 2, 3, 4, 5] [some 0]
      (by rfl)).1 (by simp),
   (find_subtours_scan 6 twoCycleSnap 5 1 [2, 3, 4, 5, 0] [some 1, some 2]
      (by rfl)).2 (by decide)⟩

/-- The arcs of the complete digraph in the order the nested loops of
`TSPIntance.__init__` enumerate them: lexicographic over all ordered pairs
with distinct components. -/
def lexArcs (n : Nat) : List (Nat × Nat) :=
  (List.range n).flatMap fun i =>
    ((List.range n).filter (fun j => j ≠ i)).map fun j => (i, j)

/-- `TSPIntance` (the source's spelling): vertex count, coordinate lists,
and the cost dictionary as the association list built in insertion
order. -/
structure TSPIntance where
  n : Nat
  x : List ℚ
  y : List ℚ
  cost : List ((Nat × Nat) × ℚ)
deriving DecidableEq

/-- The loop filling `self.cost`: consume `costs[cost_index]` for each arc
in `lexArcs` order; a too-short list raises `IndexError` at the first
out-of-range access. -/
def buildCost (costs : List ℚ) :
    List (Nat × Nat) → Nat → Except PyErr (List ((Nat × Nat) × ℚ))
  | [], _ => .ok []
  | a :: rs, k =>
    match costs.get? k with
    | none => .error .indexError
    | some c =>
      match buildCost costs rs (k + 1) with
      | .error e => .error e
      | .ok rest => .ok ((a, c) :: rest)

/-- `TSPIntance.__init__`: assert the coordinate lists have equal length,
then populate the cost dictionary.  There is no check on the length of
`costs` itself. -/
def TSPIntance.init (x y costs : List ℚ) : Except PyErr TSPIntance :=
  if x.length = y.length then
    match buildCost costs (lexArcs x.length) 0 with
    | .error e => .error e
    | .ok cost => .ok ⟨x.length, x, y, cost⟩
  else .error .assertionError

/-- A `tsp.cost[i, j]` lookup with Python values as keys: a missing key
(including any key containing `None`) raises `KeyError`. -/
def costLookup (tsp : TSPIntance) : Option Nat → Option Nat → Except PyErr ℚ
  | some a, some b =>
    match tsp.cost.lookup (a, b) with
    | some c => .ok c
    | none => .error .keyError
  | _, _ => .error .keyError

/-- The cost derivation of `TSPSolution.__init__`: the source sums
`tsp.cost[i, j]` over the NESTED loops `for i in tour[:-1] for j in
tour[1:]` (a cartesian product, not the consecutive pairs), evaluated left
to right, aborting at the first `KeyError`. -/
def derivedCost (tsp : TSPIntance) (tour : List (Option Nat)) : Except PyErr ℚ :=
  (tour.dropLast.flatMap fun oi => tour.tail.map fun oj => (oi, oj)).foldlM
    (fun acc p => (costLookup tsp p.1 p.2).map fun c => acc + c) 0

/-- `TSPSolution`: the decoded tour and its total cost. -/
structure TSPSolution where
  tour : List (Option Nat)
  cost : ℚ
deriving DecidableEq

/-- `TSPSolution.__init__`: assert that a cost or an instance was passed;
an explicit cost wins, otherwise the cost is derived from the instance. -/
def TSPSolution.init (tour : List (Option Nat)) (cost? : Option ℚ)
    (inst? : Option TSPIntance) : Except PyErr TSPSolution :=
  match cost?, inst? with
  | none, none => .error .assertionError
  | some c, _ => .ok ⟨tour, c⟩
  | none, some tsp =>
    match derivedCost tsp tour with
    | .error e => .error e
    | .ok c => .ok ⟨tour, c⟩

/-- The derived cost the specification prescribes: the sum of
`cost(tour[k], tour[k+1])` over consecutive pairs of the tour, stated from
the spec's words for comparison with `derivedCost`. -/
def claimedTourCost (tsp : TSPIntance) (tour : List Nat) : Option ℚ :=
  (tour.zip tour.tail).foldlM
    (fun acc p => (tsp.cost.lookup p).map fun c => acc + c) 0

/-- A concrete 3-vertex instance whose six arc costs are 1..6 in
lexicographic arc order. -/
def inst3 : TSPIntance :=
  ⟨3, [0, 0, 0], [0, 0, 0],
    [((0, 1), 1), ((0, 2), 2), ((1, 0), 3), ((1, 2), 4), ((2, 0), 5), ((2, 1), 6)]⟩

/-- C1: a Solution deriving its cost from the Instance does not report the
consecutive-pair sum.  On the tour `[0, 1, 2]` of `inst3` the spec's sum
is `cost(0,1) + cost(1,2) = 5`, but the source's nested double loop sums
`tsp.cost[i, j]` over the cartesian product of `tour[:-1]` and `tour[1:]`
and raises `KeyError` at the self-pair `(1, 1)`.  (The first conjunct
checks `inst3` is exactly what `TSPIntance.__init__` builds.) -/
theorem solution_cost_double_loop_bug :
    TSPIntance.init [0, 0, 0] [0, 0, 0] [1, 2, 3, 4, 5, 6] = .ok inst3 ∧
    TSPSolution.init [some 0, some 1, some 2] none (some inst3) =
      .error .keyError ∧
    claimedTourCost inst3 [0, 1, 2] = some 5 :=
  ⟨by rfl, by rfl, by
    rw [show claimedTourCost inst3 [0, 1, 2] = some ((0 : ℚ) + 1 + 4) from rfl]
    norm_num⟩

/-- C10: when both an explicit cost and an Instance reference are passed,
the explicit cost is stored and the Instance is ignored entirely — the
result is the same for every optional Instance, even one on which the
derivation would fail. -/
theorem explicit_cost_ignores_instance (tour : List (Option Nat)) (c : ℚ)
    (inst? : Option TSPIntance) :
    TSPSolution.init tour (some c) inst? = .ok ⟨tour, c⟩ := by
  cases inst? <;> rfl

theorem length_filter_ne (i : Nat) :
    ∀ n : Nat, ((List.range n).filter (fun j => j ≠ i)).length =
      if i < n then n - 1 else n := by
  intro n
  induction n with
  | zero => simp
  | succ n ih =>
    have hf : (List.filter (fun j => decide (j ≠ i)) [n]).length =
        if n = i then 0 else 1 := by
      by_cases h : n = i <;> simp [List.filter, h]
    rw [List.range_succ, List.filter_append, List.length_append, ih, hf]
    split_ifs <;> omega

theorem sum_map_const {α : Type} (l : List α) (c : Nat) :
    (l.map fun _ => c).sum = l.length * c := by
  induction l with
  | nil => simp
  | cons a tl ih => simp [ih, Nat.succ_mul]; omega

theorem lexArcs_length (n : Nat) : (lexArcs n).length = n * (n - 1) := by
  rw [lexArcs, List.length_flatMap]
  simp only [Function.comp_def]
  have hmap : (List.range n).map
      (fun i => (((List.range n).filter (fun j => j ≠ i)).map fun j => (i, j)).length) =
      (List.range n).map fun _ => n - 1 := by
    refine List.map_congr_left ?_
    intro i hi
    rw [List.length_map, length_filter_ne]
    simp [List.mem_range.mp hi]
  rw [hmap, sum_map_const, List.length_range]

theorem buildCost_ok (costs : List ℚ) :
    ∀ (arcs : List (Nat × Nat)) (k : Nat), k + arcs.length ≤ costs.length →
      ∃ r, buildCost costs arcs k = .ok r := by
  intro arcs
  induction arcs with
  | nil => intro k _; exact ⟨[], rfl⟩
  | cons a rs ih =>
    intro k hk
    have hklen : k < costs.length := by
      simp only [List.length_cons] at hk; omega
    rcases ih (k + 1) (by simp only [List.length_cons] at hk; omega) with ⟨r, hr⟩
    refine ⟨(a, costs.get ⟨k, hklen⟩) :: r, ?_⟩
    simp only [buildCost, List.get?_eq_get hklen, hr]

/-- C8, counterexample: a cost list whose length is not `n*(n-1)` is not
rejected.  With one vertex the expected length is `1 * 0 = 0`, yet
construction from a singleton cost list succeeds silently (the extra entry
is ignored). -/
theorem instance_oversized_costs_accepted :
    TSPIntance.init [0] [0] [5] = .ok ⟨1, [0], [0], []⟩ ∧
    (1 : Nat) * (1 - 1) ≠ ([(5 : ℚ)]).length :=
  ⟨by rfl, by decide⟩

/-- C8, amended: Instance construction fails with the assertion
(`InvalidInput`) exactly on mismatched coordinate lengths; a cost list
with AT LEAST `n*(n-1)` entries is always accepted (extra entries are
silently ignored, and a shorter list raises `IndexError` during
population, not the eager assertion); Solution construction fails with the
assertion when neither a cost nor an instance is supplied. -/
theorem construction_validation (x y costs : List ℚ) (tour : List (Option Nat)) :
    (x.length ≠ y.length → TSPIntance.init x y costs = .error .assertionError) ∧
    (x.length = y.length → x.length * (x.length - 1) ≤ costs.length →
      ∃ t, TSPIntance.init x y costs = .ok t) ∧
    TSPSolution.init tour none none = .error .assertionError := by
  refine ⟨?_, ?_, rfl⟩
  · intro hne
    simp only [TSPIntance.init, if_neg hne]
  · intro heq hlen
    rcases buildCost_ok costs (lexArcs x.length) 0
      (by rw [Nat.zero_add, lexArcs_length]; omega) with ⟨r, hr⟩
    exact ⟨⟨x.length, x, y, r⟩, by simp only [TSPIntance.init, if_pos heq, hr]⟩

theorem construction_validation_witness :
    TSPIntance.init [0] [0, 1] [] = .error .assertionError ∧
    (∃ t, TSPIntance.init [0, 0] [0, 0] [1, 2] = .ok t) ∧
    TSPSolution.init [some 0] none none = .error .assertionError :=
  ⟨(construction_validation [0] [0, 1] [] [some 0]).1 (by decide),
   (construction_validation [0, 0] [0, 0] [1, 2] [some 0]).2.1 rfl (by decide),
   (construction_validation [0] [0] [] [some 0]).2.2⟩

/-- The SEC the specification describes for an illegal subtour `T`: the
variables on the consecutive arcs of `T` plus the closing arc back to the
head, bounded by `|T| - 1`; stated from the spec's words for comparison
with `addSecFor`. -/
def claimedSec (T : List Nat) : LazyIneq :=
  ⟨T.zip (T.rotate 1), (T.length : Int) - 1⟩

/-- C2: submitting the SEC for the illegal 2-cycle `[1, 2]` does not
produce the inequality `x[1,2] + x[2,1] <= 1` the spec describes — the
source raises `TypeError` while unpacking the vertex `1` (an int) as an
arc pair, for this and every other non-empty vertex sequence. -/
theorem add_sec_unpack_bug :
    addSecFor [some 1, some 2] = .error .typeError ∧
    claimedSec [1, 2] = ⟨[(1, 2), (2, 1)], 1⟩ :=
  ⟨by rfl, by rfl⟩

/-- Sum of the selection values on the arcs leaving `v`, that is
`x.sum(v, '*')` over the tupledict keys `(v, j)`, `j ≠ v`. -/
def outSum (n : Nat) (x : Nat → Nat → ℚ) (v : Nat) : ℚ :=
  (((List.range n).filter (fun j => j ≠ v)).map fun j => x v j).sum

/-- Sum of the selection values on the arcs entering `v`, that is
`x.sum('*', v)`. -/
def inSum (n : Nat) (x : Nat → Nat → ℚ) (v : Nat) : ℚ :=
  (((List.range n).filter (fun j => j ≠ v)).map fun j => x j v).sum

/-- One linear constraint of the base model. -/
inductive BaseCon where
  | outEq (v : Nat) (b : ℚ)
  | inEq (v : Nat) (b : ℚ)
  | conserve (v : Nat)
  | outLe (v : Nat) (b : ℚ)
deriving DecidableEq

/-- `__build_model`: the base constraints in the order the source adds
them (`range(1, n-1)` is the interior-vertex list `1..n-2`). -/
def buildModel (n : Nat) : List BaseCon :=
  [BaseCon.outEq 0 1, BaseCon.inEq (n - 1) 1] ++
    ((List.range' 1 (n - 2)).map BaseCon.conserve) ++
    [BaseCon.outEq (n - 1) 0, BaseCon.inEq 0 0] ++
    ((List.range n).map fun v => BaseCon.outLe v 1)

/-- Satisfaction of one base constraint by a snapshot of values. -/
def conSat (n : Nat) (x : Nat → Nat → ℚ) : BaseCon → Prop
  | .outEq v b => outSum n x v = b
  | .inEq v b => inSum n x v = b
  | .conserve v => outSum n x v = inSum n x v
  | .outLe v b => outSum n x v ≤ b

/-- The binary variables of `addVars(self.tsp.arcs(), obj=self.tsp.cost)`
with their objective coefficients. -/
def modelVars (n : Nat) (cost : Nat → Nat → ℚ) : List ((Nat × Nat) × ℚ) :=
  (lexArcs n).map fun a => (a, cost a.1 a.2)

/-- The base model as the specification lists it: out-degree(0) = 1,
in-degree(n-1) = 1, flow conservation on every interior vertex of
`1..n-2`, out-degree(n-1) = 0, in-degree(0) = 0, and out-degree(v) ≤ 1
for every vertex; stated from the spec's words for comparison with
`buildModel`. -/
def specBaseSat (n : Nat) (x : Nat → Nat → ℚ) : Prop :=
  outSum n x 0 = 1 ∧ inSum n x (n - 1) = 1 ∧
  (∀ v, 1 ≤ v → v ≤ n - 2 → outSum n x v = inSum n x v) ∧
  outSum n x (n - 1) = 0 ∧ inSum n x 0 = 0 ∧
  ∀ v, v < n → outSum n x v ≤ 1

/-- C7: a snapshot satisfies the constraint list `__build_model` adds if
and only if it satisfies exactly the degree contract the spec states, and
every declared variable's objective coefficient is its arc cost. -/
theorem build_model_matches_spec (n : Nat) (cost : Nat → Nat → ℚ)
    (x : Nat → Nat → ℚ) :
    ((∀ c ∈ buildModel n, conSat n x c) ↔ specBaseSat n x) ∧
    ∀ p ∈ modelVars n cost, p.2 = cost p.1.1 p.1.2 := by
  constructor
  · constructor
    · intro h
      have m1 : BaseCon.outEq 0 1 ∈ buildModel n := by
        rw [buildModel]
        refine List.mem_append_left _ ?_
        refine List.mem_append_left _ ?_
        exact List.mem_append_left _ (List.mem_cons_self _ _)
      have m2 : BaseCon.inEq (n - 1) 1 ∈ buildModel n := by
        rw [buildModel]
        refine List.mem_append_left _ ?_
        refine List.mem_append_left _ ?_
        exact List.mem_append_left _ (List.mem_cons_of_mem _ (List.mem_cons_self _ _))
      have m3 : ∀ v, 1 ≤ v → v ≤ n - 2 → BaseCon.conserve v ∈ buildModel n := by
        intro v hv1 hv2
        rw [buildModel]
        refine List.mem_append_left _ ?_
        refine List.mem_append_left _ ?_
        refine List.mem_append_right _ ?_
        exact List.mem_map_of_mem _ (List.mem_range'_1.mpr ⟨hv1, by omega⟩)
      have m4 : BaseCon.outEq (n - 1) 0 ∈ buildModel n := by
        rw [buildModel]
        refine List.mem_append_left _ ?_
        exact List.mem_append_right _ (List.mem_cons_self _ _)
      have m5 : BaseCon.inEq 0 0 ∈ buildModel n := by
        rw [buildModel]
        refine List.mem_append_left _ ?_
        exact List.mem_append_right _ (List.mem_cons_of_mem _ (List.mem_cons_self _ _))
      have m6 : ∀ v, v < n → BaseCon.outLe v 1 ∈ buildModel n := by
        intro v hv
        rw [buildModel]
        exact List.mem_append_right _ (List.mem_map_of_mem _ (List.mem_range.mpr hv))
      exact ⟨h _ m1, h _ m2, fun v hv1 hv2 => h _ (m3 v hv1 hv2),
        h _ m4, h _ m5, fun v hv => h _ (m6 v hv)⟩
    · rintro ⟨h1, h2, h3, h4, h5, h6⟩ c hc
      rw [buildModel] at hc
      rcases List.mem_append.mp hc with hc | hc
      · rcases List.mem_append.mp hc with hc | hc
        · rcases List.mem_append.mp hc with hc | hc
          · rcases List.mem_cons.mp hc with rfl | hc
            · exact h1
            · rcases List.mem_singleton.mp hc with rfl
              exact h2
          · rcases List.mem_map.mp hc with ⟨v, hv, rfl⟩
            rcases List.mem_range'_1.mp hv with ⟨hv1, hv2⟩
            exact h3 v hv1 (by omega)
        · rcases List.mem_cons.mp hc with rfl | hc
          · exact h4
          · rcases List.mem_singleton.mp hc with rfl
            exact h5
      · rcases List.mem_map.mp hc with ⟨v, hv, rfl⟩
        exact h6 v (List.mem_range.mp hv)
  · intro p hp
    rcases List.mem_map.mp hp with ⟨a, _, rfl⟩
    rfl

/-- A snapshot on 2 vertices selecting only the arc (0, 1); doubles as a
concrete cost function. -/
def xW : Nat → Nat → ℚ := fun i j => if i = 0 ∧ j = 1 then 1 else 0

theorem build_model_matches_spec_witness :
    ((∀ c ∈ buildModel 2, conSat 2 xW c) ↔ specBaseSat 2 xW) ∧
    (((0, 1), xW 0 1) : (Nat × Nat) × ℚ).2 = xW 0 1 :=
  ⟨(build_model_matches_spec 2 xW xW).1,
   (build_model_matches_spec 2 xW xW).2 ((0, 1), xW 0 1)
     (List.mem_map_of_mem _ (by decide))⟩

/-- Gurobi's OPTIMAL terminal status code. -/
def GRB_OPTIMAL : Nat := 2

/-- What the external engine reports when `m.optimize(...)` returns: the
terminal status, the final variable values (read through the post-optimal
accessor) and the objective value. -/
structure SolveOutcome where
  status : Nat
  snapshot : Nat → Nat → ℚ
  objVal : ℚ

/-- `solve()` after the blocking optimize call: fail with the
`RuntimeError` (`SolveFailed`) unless the status is OPTIMAL, otherwise
decode the tour from vertex 0 on the final snapshot and wrap it with the
solver-reported objective value as the explicit cost. -/
def solverSolve (n : Nat) (o : SolveOutcome) : Except PyErr TSPSolution :=
  if o.status ≠ GRB_OPTIMAL then .error .runtimeError
  else
    match tourStartingAt n o.snapshot 0 n with
    | .error e => .error e
    | .ok t => TSPSolution.init t (some o.objVal) none

/-- C9: with a non-optimal terminal status `solve` fails with the
`SolveFailed` error and yields no partial result; with an optimal status
it returns the Solution whose tour is `tour_starting_at(0)` on the final
snapshot and whose cost is the solver-reported objective value. -/
theorem solve_status_dispatch (n : Nat) (o : SolveOutcome) :
    (o.status ≠ GRB_OPTIMAL → solverSolve n o = .error .runtimeError) ∧
    (o.status = GRB_OPTIMAL → ∀ t, tourStartingAt n o.snapshot 0 n = .ok t →
      solverSolve n o = .ok ⟨t, o.objVal⟩) := by
  constructor
  · intro h
    simp [solverSolve, h]
  · intro h t ht
    simp only [solverSolve, h, ne_eq, not_true_eq_false, if_false, ht]
    rfl

/-- Concrete optimal outcome: the path snapshot 0 to 1 to 2 and objective
value 7. -/
def optOutcome : SolveOutcome := ⟨2, pathSnap, 7⟩

/-- Concrete non-optimal outcome (status 3 is Gurobi's INFEASIBLE). -/
def badOutcome : SolveOutcome := ⟨3, pathSnap, 7⟩

theorem solve_status_dispatch_witness :
    solverSolve 3 badOutcome = .error .runtimeError ∧
    solverSolve 3 optOutcome = .ok ⟨[some 0, some 1, some 2], 7⟩ :=
  ⟨(solve_status_dispatch 3 badOutcome).1 (by decide),
   (solve_status_dispatch 3 optOutcome).2 (by rfl)
     [some 0, some 1, some 2] (by rfl)⟩
